import Mathlib

set_option maxHeartbeats 1000000

/-!
# Verification of the myangular reactive core

Shallow embedding of the digest scheduler (`src/scope/scope.js`), the
expression compiler fragments (`src/parse/ASTCompiler.js`, `src/parse/helpers.js`),
the lexer (`src/parse/Lexer.js`) and the array filter
(`src/filter/filterFilter.js`), together with theorems settling the
specification claims about them.

JavaScript dynamic values are modelled by `JSVal`; reference identity of
arrays, objects and functions is modelled by an explicit `id` tag, numbers
by `JSNum` (exact rationals plus `nan` and the two infinities; floating
point rounding plays no role in any statement below). Sequences and field
lists inside values use the dedicated mutual types `JSList` / `JSFields`.
-/

/-- JS numbers: NaN, the two infinities, and finite values (modelled exactly
as rationals). -/
inductive JSNum where
  | nan
  | inf
  | ninf
  | fin (q : ℚ)
deriving DecidableEq, BEq

mutual

/-- JS dynamic values. `arr`/`obj`/`fn` carry an `id` standing for the host
reference identity (`===` on two object values is identity, not structure). -/
inductive JSVal where
  | undef
  | null
  | bool (b : Bool)
  | num (n : JSNum)
  | str (s : String)
  | arr (id : Nat) (elems : JSList)
  | obj (id : Nat) (fields : JSFields)
  | fn (id : Nat)
deriving DecidableEq

/-- Element list of a JS array value. -/
inductive JSList where
  | nil
  | cons (head : JSVal) (tail : JSList)
deriving DecidableEq

/-- Own enumerable fields of a JS object value (duplicate-free keys, as in
the host). -/
inductive JSFields where
  | fnil
  | fcons (key : String) (val : JSVal) (tail : JSFields)
deriving DecidableEq

end

/-- Embed a Lean list of values as a `JSList`. -/
def jsListOf : List JSVal → JSList
  | [] => .nil
  | x :: xs => .cons x (jsListOf xs)

/-- Embed a Lean association list as `JSFields`. -/
def jsFieldsOf : List (String × JSVal) → JSFields
  | [] => .fnil
  | (k, v) :: xs => .fcons k v (jsFieldsOf xs)

/-- First value bound to a key (JS own-property lookup). -/
def lookupF (k : String) : JSFields → Option JSVal
  | .fnil => none
  | .fcons k' v rest => if k' = k then some v else lookupF k rest

/-- Number of fields. -/
def fieldsLen : JSFields → Nat
  | .fnil => 0
  | .fcons _ _ rest => fieldsLen rest + 1

/-- JS strict equality `===`: by value on primitives (with `NaN !== NaN`),
by reference identity on arrays, objects and functions. -/
def strictEq : JSVal → JSVal → Bool
  | .undef, .undef => true
  | .null, .null => true
  | .bool a, .bool b => a == b
  | .num .nan, .num _ => false
  | .num _, .num .nan => false
  | .num a, .num b => a == b
  | .str a, .str b => a == b
  | .arr i _, .arr j _ => i == j
  | .obj i _, .obj j _ => i == j
  | .fn i, .fn j => i == j
  | _, _ => false

/-- `Number.isNaN`: true exactly on the NaN number. -/
def isNaNv : JSVal → Bool
  | .num .nan => true
  | _ => false

/-- `simpleCompare` from `src/helpers.js`:
`(newValue, oldValue) => newValue === oldValue || (Number.isNaN(newValue) && Number.isNaN(oldValue))`. -/
def simpleCompare (newValue oldValue : JSVal) : Bool :=
  strictEq newValue oldValue || (isNaNv newValue && isNaNv oldValue)

mutual

/-- lodash `isEqual`: deep structural equality. Numbers use SameValueZero
(NaN equals NaN), arrays compare element-wise ignoring identity, objects
compare as finite maps (same number of own keys, every field of the first
present and equal in the second), functions compare by reference. -/
def isEqualV : JSVal → JSVal → Bool
  | .undef, .undef => true
  | .null, .null => true
  | .bool x, .bool y => x == y
  | .num x, .num y => x == y
  | .str x, .str y => x == y
  | .fn i, .fn j => i == j
  | .arr _ xs, .arr _ ys => isEqualL xs ys
  | .obj _ xs, .obj _ ys => fieldsLen xs == fieldsLen ys && isEqualSub xs ys
  | _, _ => false

/-- Element-wise deep equality of array contents. -/
def isEqualL : JSList → JSList → Bool
  | .nil, .nil => true
  | .cons x xs, .cons y ys => isEqualV x y && isEqualL xs ys
  | _, _ => false

/-- Every field of the first field list is present (deep-equal) in `ys`. -/
def isEqualSub : JSFields → JSFields → Bool
  | .fnil, _ => true
  | .fcons k v xs, ys =>
    (match lookupF k ys with
     | some w => isEqualV v w
     | none => false) && isEqualSub xs ys

end

/-- `Scope.$$areEqual` from `src/scope/scope.js`:
`valueEq ? isEqual(newValue, oldValue) : simpleCompare(newValue, oldValue)`. -/
def areEqual (newValue oldValue : JSVal) (valueEq : Bool) : Bool :=
  if valueEq then isEqualV newValue oldValue else simpleCompare newValue oldValue

/-! ## Watcher records and the `INIT_WATCH_VALUE` sentinel (scope.js 14-16, 50-59, 106-116) -/

/-- The `last` field of a watcher: either the module-private Symbol
`INIT_WATCH_VALUE` (a reference value equal only to itself, hence distinct
from every expression result) or a stored JS value. -/
inductive LastVal where
  | init
  | val (v : JSVal)
deriving DecidableEq

/-- A watcher record `{watchFn, listenerFn, valueEq, last}`; the listener is
left abstract (the digest model below reports the argument pair it would
receive). `σ` is the scope type the watch function reads. -/
structure WatcherRec (σ : Type) where
  watchFn : σ → JSVal
  valueEq : Bool
  last : LastVal

/-- Watcher creation in `$watch` (scope.js 50-55): `last` starts at the
sentinel. -/
def mkWatcher {σ : Type} (watchFn : σ → JSVal) (valueEq : Bool) : WatcherRec σ :=
  { watchFn := watchFn, valueEq := valueEq, last := .init }

/-- `Scope.$$areEqual(newValue, watcher.last, valueEq)`: the Symbol sentinel
is `===`-distinct from every JS value and not NaN, and lodash `isEqual`
against it is false as well, so both modes report a change. -/
def lastEqual (newValue : JSVal) (last : LastVal) (valueEq : Bool) : Bool :=
  match last with
  | .init => false
  | .val oldValue => areEqual newValue oldValue valueEq

/-- One evaluation of a single watcher inside `$$digestOnce` (scope.js
106-116): returns the `(newValue, oldValue)` pair passed to the listener
(`none` when the watcher is clean) together with the updated watcher.
`cloneDeep` is the identity on these pure values. -/
def runWatcherStep {σ : Type} (w : WatcherRec σ) (s : σ) :
    Option (JSVal × JSVal) × WatcherRec σ :=
  let newValue := w.watchFn s
  if lastEqual newValue w.last w.valueEq then (none, w)
  else
    let oldValueToPass := match w.last with
      | .init => newValue
      | .val ov => ov
    (some (newValue, oldValueToPass), { w with last := .val newValue })

/-! ## The `$digest` TTL loop (scope.js 134-171)

The loop body (async-queue flush followed by `$$digestOnce`) is abstracted
by a step oracle: iteration `i` reports whether `$$digestOnce` returned
dirty and whether `$$asyncQueue` is non-empty at the TTL check. -/

/-- Result of a `$digest` call: the final `$$phase` field and the raised
error, if any. -/
structure DigestOutcome where
  phase : Option String
  err : Option String
deriving DecidableEq

/-- The do-while loop of `$digest` with the TTL counter: `t+1` is the TTL
value before the current iteration's decrement. On `(dirty || async) && TTL == 0`
the phase is cleared and the error raised; on quiescence the loop exits and
the phase is cleared. -/
def digestLoop (step : Nat → Bool × Bool) : Nat → Nat → DigestOutcome
  | _, 0 => { phase := none, err := none }
  | i, t+1 =>
    let dirty := (step i).1
    let asyncPending := (step i).2
    if (dirty || asyncPending) && t == 0 then
      { phase := none, err := some "Maximum $watch TTL exceeded" }
    else if dirty || asyncPending then
      digestLoop step (i+1) t
    else
      { phase := none, err := none }

/-- `$digest`: phase is set to `"$digest"`, `TTL` starts at 10, the loop
runs; every exit path above records the phase already cleared. -/
def digestRun (step : Nat → Bool × Bool) : DigestOutcome :=
  digestLoop step 0 10

/-! ## One `$$digestOnce` pass over a single scope (scope.js 96-131)
    with watcher removal (scope.js 59-69)

Watchers are identified by ids (object identity; the lists are kept
duplicate-free). The behaviour of each visit is an oracle keyed by the loop
counter, which uniquely identifies the visit within a pass: which watcher
ids the watch function's destructor calls remove, whether the value
comparison reports a change, and which ids the listener removes (the
listener only runs on a change). lodash `forEachRight` captures the initial
length and reads the live array at each decremented index, which the
counter recursion below reproduces. -/

/-- Oracle entry for one watcher visit. -/
structure VisitBeh where
  watchRemoves : List Nat
  dirty : Bool
  listenerRemoves : List Nat

/-- The destructor returned by `$watch` (scope.js 61-69): `indexOf` finds
the first occurrence; only on a successful `splice` is
`$$lastDirtyWatch` cleared. Returns the new list and the found flag. -/
def removeWatcher (l : List Nat) (i : Nat) : List Nat × Bool :=
  if l.contains i then (l.eraseP (fun w => w == i), true) else (l, false)

/-- A sequence of destructor invocations. -/
def removeAll (l : List Nat) : List Nat → List Nat × Bool
  | [] => (l, false)
  | i :: is =>
    ((removeAll (removeWatcher l i).1 is).1,
      (removeWatcher l i).2 || (removeAll (removeWatcher l i).1 is).2)

/-- State of one `$$digestOnce` pass: the live watcher list,
`$$lastDirtyWatch`, whether any destructor succeeded during the pass, the
ids whose watch functions have been evaluated (in visit order), and the
`continueLoop` stop flag. -/
structure PassState where
  watchers : List Nat
  lastDirty : Option Nat
  removedAny : Bool
  executed : List Nat
  stopped : Bool
deriving DecidableEq

/-- One iteration of the `forEachRight` body (scope.js 102-127) at index
`c`: a missing entry is skipped (`if (watcher)` guard); otherwise the watch
function runs (its destructor calls clearing `$$lastDirtyWatch` on
success), then either the dirty branch (set `$$lastDirtyWatch` to this
watcher, run the listener whose destructor calls may clear it again) or the
clean branch with the `watcher === $$lastDirtyWatch` short-circuit that
stops the whole walk. -/
def visitWatcher (beh : Nat → VisitBeh) (c : Nat) (st : PassState) : PassState :=
  match st.watchers[c]? with
  | none => st
  | some w =>
    let b := beh c
    let l1 := (removeAll st.watchers b.watchRemoves).1
    let f1 := (removeAll st.watchers b.watchRemoves).2
    let ld1 := if f1 then none else st.lastDirty
    if b.dirty then
      let l2 := (removeAll l1 b.listenerRemoves).1
      let f2 := (removeAll l1 b.listenerRemoves).2
      let ld2 := if f2 then none else some w
      { watchers := l2, lastDirty := ld2, removedAny := st.removedAny || f1 || f2,
        executed := st.executed ++ [w], stopped := false }
    else if ld1 = some w then
      { watchers := l1, lastDirty := ld1, removedAny := st.removedAny || f1,
        executed := st.executed ++ [w], stopped := true }
    else
      { watchers := l1, lastDirty := ld1, removedAny := st.removedAny || f1,
        executed := st.executed ++ [w], stopped := false }

/-- The `forEachRight` loop: counter `c+1` visits index `c` and counts
down; a set stop flag ends the pass. -/
def digestPassAux (beh : Nat → VisitBeh) : Nat → PassState → PassState
  | 0, st => st
  | c+1, st => if st.stopped then st else digestPassAux beh c (visitWatcher beh c st)

/-- One `$$digestOnce` pass over a scope whose watcher list is `l`, starting
from `$$lastDirtyWatch = ld` (`$digest` resets it to null before the first
pass). -/
def digestOncePass (beh : Nat → VisitBeh) (l : List Nat) (ld : Option Nat) : PassState :=
  digestPassAux beh l.length
    { watchers := l, lastDirty := ld, removedAny := false, executed := [], stopped := false }

/-- `$watch` registration effect on the scope (scope.js 59-60): the new
watcher is `unshift`ed onto the front and `$$lastDirtyWatch` is cleared. -/
def watchRegister (watchers : List Nat) (w : Nat) : List Nat × Option Nat :=
  (w :: watchers, none)

/-- A visit behaviour with no changes and no removals. -/
def quietVisit : Nat → VisitBeh := fun _ => { watchRemoves := [], dirty := false, listenerRemoves := [] }

/-- Counterexample behaviour: the oldest watcher (visited first, at index 3
of a four-watcher list) is dirty and its *watch function* calls the
destructor of the watcher with id 2; every later visit is clean. This is
the oracle trace of the JS program
`d3 = $watch(s => { d2(); return s.a }, noop)` registered first,
`d2 = $watch(...)` registered second, and two further watchers registered
last, digested while `s.a` is stable. -/
def removeInWatchFnBeh : Nat → VisitBeh := fun c =>
  if c = 3 then { watchRemoves := [2], dirty := true, listenerRemoves := [] }
  else { watchRemoves := [], dirty := false, listenerRemoves := [] }

/-- Witness behaviour for the amended no-skip statement: the watcher at
index 1 is dirty and its *listener* destroys watcher 0; a removal occurs,
and every surviving watcher is still evaluated. -/
def removeInListenerBeh : Nat → VisitBeh := fun c =>
  if c = 1 then { watchRemoves := [], dirty := true, listenerRemoves := [0] }
  else { watchRemoves := [], dirty := false, listenerRemoves := [] }

/-! ## The event bus: `$emit` with `stopPropagation` (scope.js 442-462, 483-499) -/

/-- A listener slot of `$$listeners[eventName]`: `none` is a slot nulled by
an `$on` destructor; a live listener carries its id and whether this
invocation calls `event.stopPropagation()`. -/
structure ListenerRec where
  id : Nat
  stops : Bool
deriving DecidableEq

/-- `$$fireEventOnScope`: walks the slot array (compacting nulls), invoking
every live listener in order; returns the invoked ids and whether any of
them called `stopPropagation`. The loop never consults the propagation
flag. -/
def fireEventOnScope : List (Option ListenerRec) → List Nat × Bool
  | [] => ([], false)
  | none :: rest => fireEventOnScope rest
  | some l :: rest =>
    let (ids, stopped) := fireEventOnScope rest
    (l.id :: ids, l.stops || stopped)

/-- `$emit`: fires on the scope itself, then each ancestor up to the root
(the chain is given innermost-first), checking `propagationStopped` only in
the `while` condition between scope hops. Returns the fired listener ids in
invocation order. -/
def emitWalk : List (List (Option ListenerRec)) → List Nat
  | [] => []
  | scopeListeners :: ancestors =>
    let (ids, stopped) := fireEventOnScope scopeListeners
    if stopped then ids else ids ++ emitWalk ancestors

/-- Does some live listener of this scope call `stopPropagation`? -/
def scopeStops (ls : List (Option ListenerRec)) : Bool :=
  ls.any fun s => match s with
    | some l => l.stops
    | none => false

/-- Ids of the live listeners of one scope, in slot order. -/
def liveIds (ls : List (Option ListenerRec)) : List Nat :=
  ls.filterMap fun s => match s with
    | some l => some l.id
    | none => none

/-- The prefix of the scope chain an emitted event reaches: every scope up
to and including the first one containing a stopping listener. -/
def takeUntilStopped : List (List (Option ListenerRec)) → List (List (Option ListenerRec))
  | [] => []
  | s :: rest => if scopeStops s then [s] else s :: takeUntilStopped rest

/-! ## The safety gate for member names (helpers.js 25-39) -/

/-- The member names rejected by the gate. -/
def disallowedMemberNames : List String :=
  ["constructor", "__proto__", "__defineGetter__", "__defineSetter__",
   "__lookupGetter__", "__lookupSetter__"]

/-- `ensure.safeMemberName`: throws on a disallowed name, otherwise does
nothing. (Called by the compiler on every non-computed member name and
identifier at compile time and on every computed member name at evaluation
time.) -/
def safeMemberName (name : String) : Except String Unit :=
  if name ∈ disallowedMemberNames then
    .error "Attempting to access a disallowed field in Angular expressions!"
  else .ok ()

/-! ## Host value conversions

`ToString`, `ToNumber` and `ToBoolean` as exercised by the compiled
operator code. Non-integral number rendering and a few `ToPrimitive`
corners of exotic objects are host details never exercised by the
statements below; they are approximated and marked as such. -/

/-- Number rendering: exact for NaN, the infinities and integers (the only
numeric values any statement below renders); non-integral rationals use a
`num/den` placeholder. -/
def jsNumToString : JSNum → String
  | .nan => "NaN"
  | .inf => "Infinity"
  | .ninf => "-Infinity"
  | .fin q => if q.den = 1 then toString q.num else toString q.num ++ "/" ++ toString q.den

mutual

/-- JS `String(v)` on the modelled values (function source text is
host-defined and unused). -/
def jsToString : JSVal → String
  | .undef => "undefined"
  | .null => "null"
  | .bool b => if b then "true" else "false"
  | .num n => jsNumToString n
  | .str s => s
  | .arr _ xs => jsListToString xs
  | .obj _ _ => "[object Object]"
  | .fn _ => "function"

/-- `Array.prototype.toString` = `join(",")`; null and undefined elements
render as the empty string. -/
def jsListToString : JSList → String
  | .nil => ""
  | .cons x .nil =>
    (match x with
     | .undef => ""
     | .null => ""
     | v => jsToString v)
  | .cons x t =>
    (match x with
     | .undef => ""
     | .null => ""
     | v => jsToString v) ++ "," ++ jsListToString t

end

/-- Leading decimal digits of a character list. -/
def splitDigits : List Char → List Char × List Char
  | [] => ([], [])
  | c :: cs =>
    if c.isDigit then
      let (d, r) := splitDigits cs
      (c :: d, r)
    else ([], c :: cs)

/-- Numeric value of a digit run. -/
def digitsToNat (ds : List Char) : Nat :=
  ds.foldl (fun acc c => acc * 10 + (c.toNat - 48)) 0

/-- `Number(s)` on a string: the empty string is 0; otherwise an optional
sign, decimal digits with an optional fraction and an optional
`e[+|-]digits` exponent (the exponent marker arrives lowercased from the
lexer); anything else is NaN. Whitespace trimming and hex literals are
untouched by the claims and omitted. -/
def jsStringToNumber (s : String) : JSNum :=
  match s.toList with
  | [] => .fin 0
  | cs0 =>
    let (neg, cs) : Bool × List Char :=
      match cs0 with
      | '-' :: t => (true, t)
      | '+' :: t => (false, t)
      | t => (false, t)
    let (ip, r1) := splitDigits cs
    let (fp, r2) : List Char × List Char :=
      match r1 with
      | '.' :: t => splitDigits t
      | _ => ([], r1)
    if ip.isEmpty && fp.isEmpty then .nan
    else
      let mant : ℚ := (digitsToNat ip : ℚ) + (digitsToNat fp : ℚ) / ((10 : ℚ) ^ fp.length)
      let signed : ℚ := if neg then -mant else mant
      match r2 with
      | [] => .fin signed
      | 'e' :: t =>
        let (esgn, t2) : Bool × List Char :=
          match t with
          | '+' :: u => (false, u)
          | '-' :: u => (true, u)
          | u => (false, u)
        let (ed, r3) := splitDigits t2
        if ed.isEmpty || !r3.isEmpty then .nan
        else if esgn then .fin (signed / (10 : ℚ) ^ digitsToNat ed)
        else .fin (signed * (10 : ℚ) ^ digitsToNat ed)
      | _ => .nan

/-- `ToPrimitive` with the default hint: arrays and objects go through
their string form. -/
def toPrimitiveV : JSVal → JSVal
  | .arr _ xs => .str (jsListToString xs)
  | .obj _ _ => .str "[object Object]"
  | .fn _ => .str "function"
  | v => v

/-- JS `ToNumber`. -/
def toNumber : JSVal → JSNum
  | .undef => .nan
  | .null => .fin 0
  | .bool b => .fin (if b then 1 else 0)
  | .num n => n
  | .str s => jsStringToNumber s
  | .arr _ xs => jsStringToNumber (jsListToString xs)
  | .obj _ _ => .nan
  | .fn _ => .nan

/-- JS `ToBoolean`. -/
def truthy : JSVal → Bool
  | .undef => false
  | .null => false
  | .bool b => b
  | .num .nan => false
  | .num (.fin q) => !(q == 0)
  | .num _ => true
  | .str s => !s.isEmpty
  | _ => true

/-! ## Number arithmetic (IEEE special values; finite arithmetic exact) -/

def numNeg : JSNum → JSNum
  | .nan => .nan
  | .inf => .ninf
  | .ninf => .inf
  | .fin q => .fin (-q)

def numAdd : JSNum → JSNum → JSNum
  | .nan, _ => .nan
  | _, .nan => .nan
  | .inf, .ninf => .nan
  | .ninf, .inf => .nan
  | .inf, _ => .inf
  | _, .inf => .inf
  | .ninf, _ => .ninf
  | _, .ninf => .ninf
  | .fin a, .fin b => .fin (a + b)

def numSub (a b : JSNum) : JSNum := numAdd a (numNeg b)

def numMul : JSNum → JSNum → JSNum
  | .nan, _ => .nan
  | _, .nan => .nan
  | .inf, .inf => .inf
  | .inf, .ninf => .ninf
  | .ninf, .inf => .ninf
  | .ninf, .ninf => .inf
  | .inf, .fin b => if b = 0 then .nan else if 0 < b then .inf else .ninf
  | .fin a, .inf => if a = 0 then .nan else if 0 < a then .inf else .ninf
  | .ninf, .fin b => if b = 0 then .nan else if 0 < b then .ninf else .inf
  | .fin a, .ninf => if a = 0 then .nan else if 0 < a then .ninf else .inf
  | .fin a, .fin b => .fin (a * b)

def numDiv : JSNum → JSNum → JSNum
  | .nan, _ => .nan
  | _, .nan => .nan
  | .inf, .inf => .nan
  | .inf, .ninf => .nan
  | .ninf, .inf => .nan
  | .ninf, .ninf => .nan
  | .inf, .fin b => if 0 ≤ b then .inf else .ninf
  | .ninf, .fin b => if 0 ≤ b then .ninf else .inf
  | .fin _, .inf => .fin 0
  | .fin _, .ninf => .fin 0
  | .fin a, .fin b =>
    if b = 0 then (if a = 0 then .nan else if 0 < a then .inf else .ninf)
    else .fin (a / b)

/-- Truncation towards zero. -/
def ratTrunc (q : ℚ) : ℚ :=
  if 0 ≤ q then (q.floor : ℚ) else -(((-q).floor : ℚ))

/-- JS remainder `%` (sign of the dividend). -/
def numMod : JSNum → JSNum → JSNum
  | .nan, _ => .nan
  | _, .nan => .nan
  | .inf, _ => .nan
  | .ninf, _ => .nan
  | .fin a, .inf => .fin a
  | .fin a, .ninf => .fin a
  | .fin a, .fin b => if b = 0 then .nan else .fin (a - b * ratTrunc (a / b))

def numLtB : JSNum → JSNum → Bool
  | .nan, _ => false
  | _, .nan => false
  | .inf, _ => false
  | .ninf, .ninf => false
  | .ninf, _ => true
  | .fin _, .inf => true
  | .fin _, .ninf => false
  | .fin a, .fin b => decide (a < b)

def numLeB : JSNum → JSNum → Bool
  | .nan, _ => false
  | _, .nan => false
  | a, b => !numLtB b a

def numEqB : JSNum → JSNum → Bool
  | .nan, _ => false
  | _, .nan => false
  | a, b => a == b

/-! ## The compiled binary and unary operators (ASTCompiler.js 702-720, 793-794) -/

/-- `#ifDefined` (ASTCompiler.js 793-794):
`typeof value === 'undefined' ? defaultValue : value`. -/
def ifDefined (value defaultValue : JSVal) : JSVal :=
  match value with
  | .undef => defaultValue
  | v => v

/-- JS `<`: string-string comparison is lexicographic, otherwise numeric. -/
def hostLt (a b : JSVal) : JSVal :=
  match toPrimitiveV a, toPrimitiveV b with
  | .str x, .str y => .bool (decide (x < y))
  | pa, pb => .bool (numLtB (toNumber pa) (toNumber pb))

/-- JS `<=`. -/
def hostLe (a b : JSVal) : JSVal :=
  match toPrimitiveV a, toPrimitiveV b with
  | .str x, .str y => .bool (decide (x ≤ y))
  | pa, pb => .bool (numLeB (toNumber pa) (toNumber pb))

/-- JS loose equality `==` on the modelled values (`null == undefined`,
numeric coercion of strings and booleans, objects by identity against each
other and through `ToPrimitive` against primitives). -/
def looseEq (a b : JSVal) : Bool :=
  let conv : JSVal → JSVal := fun v =>
    match v with
    | .bool x => .num (.fin (if x then 1 else 0))
    | w => w
  match conv a, conv b with
  | .undef, .undef => true
  | .null, .null => true
  | .null, .undef => true
  | .undef, .null => true
  | .num x, .num y => numEqB x y
  | .str x, .str y => x == y
  | .num x, .str s => numEqB x (jsStringToNumber s)
  | .str s, .num y => numEqB (jsStringToNumber s) y
  | .arr i _, .arr j _ => i == j
  | .obj i _, .obj j _ => i == j
  | .fn i, .fn j => i == j
  | .arr _ xs, .num y => numEqB (jsStringToNumber (jsListToString xs)) y
  | .num x, .arr _ ys => numEqB x (jsStringToNumber (jsListToString ys))
  | .arr _ xs, .str t => jsListToString xs == t
  | .str t, .arr _ ys => t == jsListToString ys
  | .obj _ _, .str t => "[object Object]" == t
  | .str t, .obj _ _ => t == "[object Object]"
  | _, _ => false

/-- JS `+`: string concatenation when either `ToPrimitive` result is a
string, numeric addition otherwise. -/
def jsAdd (a b : JSVal) : JSVal :=
  match toPrimitiveV a, toPrimitiveV b with
  | .str x, pb => .str (x ++ jsToString pb)
  | pa, .str y => .str (jsToString pa ++ y)
  | pa, pb => .num (numAdd (toNumber pa) (toNumber pb))

/-- Host semantics of each binary operator the AST builder can produce.
An operator outside the grammar yields `undefined` (unreachable). -/
def hostBinary (op : String) (a b : JSVal) : JSVal :=
  if op = "+" then jsAdd a b
  else if op = "-" then .num (numSub (toNumber a) (toNumber b))
  else if op = "*" then .num (numMul (toNumber a) (toNumber b))
  else if op = "/" then .num (numDiv (toNumber a) (toNumber b))
  else if op = "%" then .num (numMod (toNumber a) (toNumber b))
  else if op = "<" then hostLt a b
  else if op = ">" then hostLt b a
  else if op = "<=" then hostLe a b
  else if op = ">=" then hostLe b a
  else if op = "==" then .bool (looseEq a b)
  else if op = "!=" then .bool (!looseEq a b)
  else if op = "===" then .bool (strictEq a b)
  else if op = "!==" then .bool (!strictEq a b)
  else JSVal.undef

/-- The code emitted for a `BinaryExpression` (ASTCompiler.js 708-720):
`+` and `-` wrap both operands in `ifDefined(…, 0)`; every other operator
applies the host operator to the raw operands. -/
def compiledBinaryEval (op : String) (a b : JSVal) : JSVal :=
  if op = "+" ∨ op = "-" then
    hostBinary op (ifDefined a (.num (.fin 0))) (ifDefined b (.num (.fin 0)))
  else hostBinary op a b

/-- Host semantics of the unary operators. -/
def hostUnary (op : String) (v : JSVal) : JSVal :=
  if op = "+" then .num (toNumber v)
  else if op = "-" then .num (numNeg (toNumber v))
  else if op = "!" then .bool (!truthy v)
  else JSVal.undef

/-- The code emitted for a `UnaryExpression` (ASTCompiler.js 702-706):
every unary operand is wrapped in `ifDefined(…, 0)`. -/
def compiledUnaryEval (op : String) (a : JSVal) : JSVal :=
  hostUnary op (ifDefined a (.num (.fin 0)))

/-! ## The analysed AST (AST.js node kinds; helpers.js 85-205)

`candidate[0] !== ast[0]` in `getInputs` compares node identity. In this
term model the comparison is structural, which coincides: a node's
`toWatch` entries are either the node itself or strict subterms, and a
strict subterm is never structurally equal to the whole term. -/

mutual

/-- AST nodes (object-literal keys are Identifier or Literal nodes and are
ignored by the analysis, which only visits property values). -/
inductive JsAst where
  | literal (v : JSVal)
  | identifier (name : String)
  | thisExpr
  | localsExpr
  | arrayExpr (elems : JsAstList)
  | objectExpr (props : JsProps)
  | member (obj prop : JsAst) (computed : Bool)
  | call (callee : JsAst) (args : JsAstList) (filterCall : Bool)
  | assignE (lhs rhs : JsAst)
  | logicalE (op : String) (lhs rhs : JsAst)
  | binaryE (op : String) (lhs rhs : JsAst)
  | conditionalE (test consequent alternate : JsAst)
  | unaryE (op : String) (arg : JsAst)
deriving DecidableEq

inductive JsAstList where
  | nil
  | cons (head : JsAst) (tail : JsAstList)
deriving DecidableEq

inductive JsProps where
  | pnil
  | pcons (key : JsAst) (value : JsAst) (tail : JsProps)
deriving DecidableEq

end

/-- `ast.callee.name`: filter callees are Identifier nodes. -/
def calleeName : JsAst → String
  | .identifier n => n
  | _ => ""

mutual

/-- `markConstantAndWatchExpressions` (helpers.js 85-205) on one expression
node, parametrised by the filter registry's statefulness predicate
(`filter(name).$stateful`). Returns the node's `(constant, toWatch)`. -/
def annotate (stateful : String → Bool) : JsAst → Bool × List JsAst
  | .literal _ => (true, [])
  | .identifier n => (false, [.identifier n])
  | .thisExpr => (false, [])
  | .localsExpr => (false, [])
  | .arrayExpr es => annotateSeq stateful es
  | .objectExpr ps => annotateProps stateful ps
  | .member o p computed =>
    let ao := annotate stateful o
    let pc := if computed then (annotate stateful p).1 else true
    (ao.1 && pc, [.member o p computed])
  | .call callee args filterCall =>
    let stateless := filterCall && !stateful (calleeName callee)
    let as_ := annotateSeq stateful args
    (stateless && as_.1, if stateless then as_.2 else [.call callee args filterCall])
  | .assignE l r =>
    ((annotate stateful l).1 && (annotate stateful r).1, [.assignE l r])
  | .logicalE op l r =>
    ((annotate stateful l).1 && (annotate stateful r).1, [.logicalE op l r])
  | .binaryE _ l r =>
    let al := annotate stateful l
    let ar := annotate stateful r
    (al.1 && ar.1, al.2 ++ ar.2)
  | .conditionalE t c a =>
    ((annotate stateful t).1 && (annotate stateful c).1 && (annotate stateful a).1,
      [.conditionalE t c a])
  | .unaryE _ arg => annotate stateful arg

/-- The reduce over array elements / call arguments: `constant` is the
conjunction; `toWatch` collects the `toWatch` of the non-constant children
in order. -/
def annotateSeq (stateful : String → Bool) : JsAstList → Bool × List JsAst
  | .nil => (true, [])
  | .cons x xs =>
    let ax := annotate stateful x
    let rest := annotateSeq stateful xs
    (ax.1 && rest.1, (if ax.1 then [] else ax.2) ++ rest.2)

/-- The reduce over object properties (only the values are analysed). -/
def annotateProps (stateful : String → Bool) : JsProps → Bool × List JsAst
  | .pnil => (true, [])
  | .pcons _ v t =>
    let av := annotate stateful v
    let rest := annotateProps stateful t
    (av.1 && rest.1, (if av.1 then [] else av.2) ++ rest.2)

end

/-- A statement's `toWatch` list. -/
def toWatchOf (stateful : String → Bool) (stmt : JsAst) : List JsAst :=
  (annotate stateful stmt).2

/-- `getInputs` (helpers.js 9-16) over the program body: defined only for a
single-statement program whose `toWatch` is not exactly the statement
itself. -/
def getInputs (stateful : String → Bool) (body : List JsAst) : Option (List JsAst) :=
  match body with
  | [stmt] =>
    let candidate := toWatchOf stateful stmt
    if candidate.length = 1 ∧ candidate.head? = some stmt then none
    else some candidate
  | _ => none

/-- The input expressions compiled by `ASTCompiler.compile`
(ASTCompiler.js 470-477): one evaluator per `getInputs` entry (an absent
`getInputs` result contributes none). -/
def compiledInputs (stateful : String → Bool) (body : List JsAst) : List JsAst :=
  (getInputs stateful body).getD []

/-- Whether the compiled expression carries an `inputs` field: `#watchFns`
(ASTCompiler.js 806-824) sets `fn.inputs` exactly when at least one input
evaluator was emitted. -/
def hasInputs (stateful : String → Bool) (body : List JsAst) : Bool :=
  !(compiledInputs stateful body).isEmpty

/-! ## The lexer (Lexer.js)

`#peekNextChar` returns the character at `index + n`, or the boolean
`false` past the end of the text. Feeding that `false` into the character
predicates coerces it numerically: `'0' <= false && false <= '9'` compares
`0 <= 0 && 0 <= 9`, so `isNumber(false)` — and with it
`isExpOperator(false)` — is `true`. The two `AtEnd` predicates below encode
exactly this behaviour for the out-of-bounds case. -/

/-- Tokens `{text, value?, identifier?}`; absent fields are `none`/`false`. -/
structure Token where
  text : String
  value : Option JSVal := none
  identifier : Bool := false
deriving DecidableEq

/-- The token the lexer pushes for a scanned number text:
`{text: number, value: Number(number)}` (Lexer.js 94-97). -/
def Token.ofNumber (t : String) : Token :=
  { text := t, value := some (.num (jsStringToNumber t)) }

/-- `Lexer.#isIdentifier`. -/
def isIdentChJS (c : Char) : Bool :=
  ('a' ≤ c && c ≤ 'z') || ('A' ≤ c && c ≤ 'Z') || c == '_' || c == '$'

/-- `Lexer.#isWhiteSpace`. -/
def isWhiteSpaceJS (c : Char) : Bool :=
  c == ' ' || c == '\r' || c == '\t' || c == '\n' || c == '\x0b' || c == '\u00A0'

/-- `Lexer.#isExpOperator` on an in-bounds character. -/
def isExpOperatorCh (c : Char) : Bool :=
  c == '-' || c == '+' || c.isDigit

/-- `Lexer.#isExpOperator(peek())`: `true` past the end (see the section
comment). -/
def isExpOperatorAtEnd : Option Char → Bool
  | none => true
  | some c => isExpOperatorCh c

/-- `Lexer.#isNumber(peek())`: `true` past the end (see the section
comment). -/
def isNumberAtEnd : Option Char → Bool
  | none => true
  | some c => c.isDigit

/-- `Lexer.#readNumber` (Lexer.js 64-98): scans from the current position,
lowercasing each character; digits and dots are absorbed; `e` is absorbed
when the peeked character is an exponent operator (or the text ends); a
sign is absorbed when it follows `e` and a digit follows it, and raises
`Invalid exponent!` when it follows `e` with no digit following; any other
character ends the number. Returns the scanned characters and the rest of
the input. -/
def readNumberAux : List Char → List Char → Except String (List Char × List Char)
  | [], acc => .ok (acc, [])
  | chOrig :: rest, acc =>
    let ch := chOrig.toLower
    if ch == '.' || ch.isDigit then readNumberAux rest (acc ++ [ch])
    else
      let nextCh : Option Char := rest.head?
      let prevCh : Option Char := acc.getLast?
      if ch == 'e' && isExpOperatorAtEnd nextCh then readNumberAux rest (acc ++ [ch])
      else if isExpOperatorCh ch && prevCh == some 'e' &&
          (match nextCh with
           | some n => n.isDigit
           | none => false) then
        readNumberAux rest (acc ++ [ch])
      else if isExpOperatorCh ch && prevCh == some 'e' &&
          (nextCh == none || !ch.isDigit) then
        .error "Invalid exponent!"
      else .ok (acc, chOrig :: rest)

/-- `Lexer.#ESCAPES`. -/
def escapesJS (c : Char) : Option Char :=
  if c == 'n' then some '\n'
  else if c == 'f' then some '\x0c'
  else if c == 'r' then some '\r'
  else if c == 't' then some '\t'
  else if c == 'v' then some '\x0b'
  else if c == '\'' then some '\''
  else if c == '"' then some '"'
  else none

def isHexDigitJS (c : Char) : Bool :=
  c.isDigit || ('a' ≤ c && c ≤ 'f') || ('A' ≤ c && c ≤ 'F')

def hexVal (c : Char) : Nat :=
  if c.isDigit then c.toNat - 48
  else if 'a' ≤ c && c ≤ 'f' then c.toNat - 87
  else c.toNat - 55

/-- `Lexer.#readString` (Lexer.js 101-142) after the opening quote:
tracks the escape flag, the decoded characters and the raw text (which
includes both quotes and the backslashes, but not the four hex digits of a
unicode escape, which `moveToNextChar(4)` skips). A `\"u"` escape demands
four hex digits; reaching the end of input without the closing quote is
`Unmatched quote`. -/
def readStringAux (quote : Char) :
    List Char → Bool → List Char → List Char → Except String (Token × List Char)
  | [], _, _, _ => .error "Unmatched quote"
  | ch :: rest, esc, acc, raw =>
    let raw' := raw ++ [ch]
    if esc then
      if ch == 'u' then
        match rest with
        | a :: b :: c :: d :: rest' =>
          if isHexDigitJS a && isHexDigitJS b && isHexDigitJS c && isHexDigitJS d then
            let code := ((hexVal a * 16 + hexVal b) * 16 + hexVal c) * 16 + hexVal d
            readStringAux quote rest' false (acc ++ [Char.ofNat code]) raw'
          else .error "Invalid unicode escape"
        | _ => .error "Invalid unicode escape"
      else
        match escapesJS ch with
        | some r => readStringAux quote rest false (acc ++ [r]) raw'
        | none => readStringAux quote rest false (acc ++ [ch]) raw'
    else if ch == quote then
      .ok ({ text := String.mk raw', value := some (.str (String.mk acc)) }, rest)
    else if ch == '\\' then readStringAux quote rest true acc raw'
    else readStringAux quote rest false (acc ++ [ch]) raw'

/-- `Lexer.#readIdentifier` (Lexer.js 151-166). -/
def readIdentAux : List Char → List Char → List Char × List Char
  | [], acc => (acc, [])
  | ch :: rest, acc =>
    if isIdentChJS ch || ch.isDigit then readIdentAux rest (acc ++ [ch])
    else (acc, ch :: rest)

/-- `Lexer.#OPERATORS`. -/
def isOperatorJS (s : String) : Bool :=
  ["+", "!", "-", "*", "/", "%", "=", "==", "!=", "===", "!==",
   "<", ">", "<=", ">=", "&&", "||", "|"].contains s

/-- The symbol characters `[],{}:.()?;`. -/
def isSymbolChJS (c : Char) : Bool :=
  c == '[' || c == ']' || c == ',' || c == '{' || c == '}' || c == ':' ||
  c == '.' || c == '(' || c == ')' || c == '?' || c == ';'

/-- The body of the `lex` main loop (Lexer.js 12-51); `recur` continues the
loop. The branches follow the source order (number — note the end-of-text
coercion in the leading-dot test —, string, symbol, identifier, whitespace,
then longest-match operator, else the unexpected-character error). The JS
operator lookup concatenates the boolean `false` past the end of text,
which never matches the table, so only in-bounds 2- and 3-character
strings are consulted. -/
def lexStep (recur : List Char → List Token → Except String (List Token)) :
    List Char → List Token → Except String (List Token)
  | [], acc => .ok acc
  | ch :: rest, acc =>
    if ch.isDigit || (ch == '.' && isNumberAtEnd rest.head?) then
      match readNumberAux (ch :: rest) [] with
      | .error e => .error e
      | .ok (numChars, remaining) =>
        recur remaining (acc ++ [Token.ofNumber (String.mk numChars)])
    else if ch == '\'' || ch == '"' then
      match readStringAux ch rest false [] [ch] with
      | .error e => .error e
      | .ok (tok, remaining) => recur remaining (acc ++ [tok])
    else if isSymbolChJS ch then
      recur rest (acc ++ [{ text := String.mk [ch] }])
    else if isIdentChJS ch then
      recur (readIdentAux (ch :: rest) []).2
        (acc ++ [{ text := String.mk (readIdentAux (ch :: rest) []).1, identifier := true }])
    else if isWhiteSpaceJS ch then
      recur rest acc
    else
      let op1 := isOperatorJS (String.mk [ch])
      let op2 := decide (1 ≤ rest.length) && isOperatorJS (String.mk (ch :: rest.take 1))
      let op3 := decide (2 ≤ rest.length) && isOperatorJS (String.mk (ch :: rest.take 2))
      if op1 || op2 || op3 then
        if op3 then recur (rest.drop 2) (acc ++ [{ text := String.mk (ch :: rest.take 2) }])
        else if op2 then recur (rest.drop 1) (acc ++ [{ text := String.mk (ch :: rest.take 1) }])
        else recur rest (acc ++ [{ text := String.mk [ch] }])
      else .error ("Unexpected next character: " ++ String.mk [ch])

/-- Fuel wrapper for the main loop; a fuel of the input length never runs
out since every `lexStep` consumes at least one character. -/
def lexLoop : Nat → List Char → List Token → Except String (List Token)
  | 0, [], acc => .ok acc
  | 0, _ :: _, _ => .error "lexer fuel exhausted"
  | fuel+1, chars, acc => lexStep (lexLoop fuel) chars acc

/-- `Lexer.lex`. -/
def lexJs (s : String) : Except String (List Token) :=
  lexLoop s.toList.length s.toList []

/-! ## The array filter (filterFilter.js) -/

def isUndefinedV : JSVal → Bool
  | .undef => true
  | _ => false

def isNullV : JSVal → Bool
  | .null => true
  | _ => false

/-- lodash `isObject`: objects, arrays and functions. -/
def isObjectV : JSVal → Bool
  | .arr _ _ => true
  | .obj _ _ => true
  | .fn _ => true
  | _ => false

def isArrayV : JSVal → Bool
  | .arr _ _ => true
  | _ => false

/-- Does `hay` start with `needle`? -/
def leadMatch : List Char → List Char → Bool
  | [], _ => true
  | _ :: _, [] => false
  | a :: as, b :: bs => a == b && leadMatch as bs

/-- JS `hay.includes(needle)`: `needle` occurs contiguously in `hay`. -/
def includesJS (hay needle : List Char) : Bool :=
  match hay with
  | [] => needle.isEmpty
  | _ :: rest => leadMatch needle hay || includesJS rest needle

/-- `toLowerCase` on one character (ASCII range; the claims use ASCII
data). -/
def toLowerCh (c : Char) : Char :=
  if 'A' ≤ c && c ≤ 'Z' then Char.ofNat (c.toNat + 32) else c

/-- `toLowerCase` of a string, as a character list. -/
def lowerChars (s : String) : List Char :=
  s.toList.map toLowerCh

/-- `primitiveComparator` (filterFilter.js 51-61): undefined never passes,
null compares by identity, everything else by case-insensitive substring
containment of the string coercions. -/
def primitiveComparator (actual expected : JSVal) : Bool :=
  if isUndefinedV actual then false
  else if isNullV actual || isNullV expected then strictEq actual expected
  else includesJS (lowerChars (jsToString actual)) (lowerChars (jsToString expected))

mutual

/-- Size measure used as recursion fuel for `deepCompare`: a string counts
its length (the negation strips one character per step). -/
def jsSize : JSVal → Nat
  | .str s => s.length + 1
  | .arr _ xs => 1 + jsSizeL xs
  | .obj _ fs => 1 + jsSizeF fs
  | _ => 1

def jsSizeL : JSList → Nat
  | .nil => 0
  | .cons x t => jsSize x + jsSizeL t

def jsSizeF : JSFields → Nat
  | .fnil => 0
  | .fcons _ v t => 1 + jsSize v + jsSizeF t

end

/-- `actual[key]` on the modelled values: a missing key (or a non-object
receiver) reads as undefined. -/
def objGet (k : String) : JSVal → JSVal
  | .obj _ fs => (lookupF k fs).getD .undef
  | _ => .undef

def anyListP (p : JSVal → Bool) : JSList → Bool
  | .nil => false
  | .cons x t => p x || anyListP p t

def anyFieldsP (p : JSVal → Bool) : JSFields → Bool
  | .fnil => false
  | .fcons _ v t => p v || anyFieldsP p t

def allFieldsP (p : String → JSVal → Bool) : JSFields → Bool
  | .fnil => true
  | .fcons k v t => p k v && allFieldsP p t

/-- `toPlainObject(expected)` as iterated by the `every`: an object yields
its fields, an array its index-keyed elements, anything else nothing. -/
def plainFields : JSVal → JSFields
  | .obj _ fs => fs
  | .arr _ xs => indexFields 0 xs
  | _ => .fnil
where
  indexFields (i : Nat) : JSList → JSFields
    | .nil => .fnil
    | .cons x t => .fcons (toString i) x (indexFields (i+1) t)

/-- Own values iterated by `some(actual, …)`. -/
def ownValues : JSVal → JSFields
  | .obj _ fs => fs
  | _ => .fnil

/-- The elements iterated by `actual.some(...)` in the array branch; a
non-array yields nothing (the branch is only taken on arrays). -/
def arrElems : JSVal → JSList
  | .arr _ xs => xs
  | _ => .nil

/-- Is `expected` a string starting with `!`? -/
def isNegStr : JSVal → Bool
  | .str s =>
    match s.toList with
    | '!' :: _ => true
    | _ => false
  | _ => false

/-- `expected.substring(1)`. -/
def negRest : JSVal → JSVal
  | .str s =>
    match s.toList with
    | _ :: t => .str (String.mk t)
    | [] => .str ""
  | v => v

/-- `deepCompare` (filterFilter.js 63-115), parametrised by the comparator.
The `fuel` only bounds the recursion depth; every recursive call strictly
decreases `jsSize actual + jsSize expected`, and the wrapper below supplies
that sum plus one. The boolean arguments are `matchAnyProperty` and
`inWildcard`; the JS calls that omit `inWildcard` pass `false` (undefined
is falsy). -/
def deepCompareFuel (comparator : JSVal → JSVal → Bool) :
    Nat → JSVal → JSVal → Bool → Bool → Bool
  | 0, _, _, _, _ => false
  | fuel+1, actual, expected, matchAnyProperty, inWildcard =>
    if isNegStr expected then
      !(deepCompareFuel comparator fuel actual (negRest expected) matchAnyProperty false)
    else if isArrayV actual then
      anyListP (fun item => deepCompareFuel comparator fuel item expected matchAnyProperty false)
        (arrElems actual)
    else if isObjectV actual then
      if isObjectV expected && !inWildcard then
        allFieldsP (fun expectedKey expectedVal =>
          if isUndefinedV expectedVal then true
          else
            let isWildcard := expectedKey == "$"
            let actualVal := if isWildcard then actual else objGet expectedKey actual
            deepCompareFuel comparator fuel actualVal expectedVal isWildcard isWildcard)
          (plainFields expected)
      else if matchAnyProperty then
        anyFieldsP (fun v => deepCompareFuel comparator fuel v expected matchAnyProperty false)
          (ownValues actual)
      else comparator actual expected
    else comparator actual expected

/-- `deepCompare` with adequate fuel. -/
def deepCompareV (comparator : JSVal → JSVal → Bool)
    (actual expected : JSVal) (matchAnyProperty inWildcard : Bool) : Bool :=
  deepCompareFuel comparator (jsSize actual + jsSize expected + 1)
    actual expected matchAnyProperty inWildcard

/-- Does the criterion object have a `$` key? -/
def hasDollarKey : JSVal → Bool
  | .obj _ fs => (lookupF "$" fs).isSome
  | _ => false

/-- `createPredicateFn` (filterFilter.js 40-49) with the default
`primitiveComparator` (the `comparator === true` strict mode replaces it by
`isEqual`). -/
def createPredicateFn (expression : JSVal) (comparator : JSVal → JSVal → Bool)
    (item : JSVal) : Bool :=
  let shouldMatchPrimitives := isObjectV expression && hasDollarKey expression
  if shouldMatchPrimitives && !isObjectV item then
    deepCompareV comparator item (objGet "$" expression) false false
  else deepCompareV comparator item expression true false

/-- Does the criterion take the predicate path (filterFilter.js 21-34)?
`isString || isNumber || isBoolean || isNull || isObject`; an undefined
criterion returns the array unfiltered. Callable criteria are outside this
model. -/
def filterAccepts : JSVal → Bool
  | .str _ => true
  | .num _ => true
  | .bool _ => true
  | .null => true
  | .arr _ _ => true
  | .obj _ _ => true
  | .fn _ => true
  | .undef => false

/-- The built-in `filter` on an array, with a criterion value and the
default comparator. -/
def filterRun (array : List JSVal) (filterExpr : JSVal) : List JSVal :=
  if filterAccepts filterExpr then
    array.filter (createPredicateFn filterExpr primitiveComparator)
  else array

/-! # Theorems -/

/-! ## C4: the digest's dirtiness comparison -/

/-- **C4.** For every watcher and every pair of values: the digest's
dirtiness comparison (`Scope.$$areEqual`) uses structural deep equality
(lodash `isEqual`) when the watcher was registered with `valueEq` true, and
otherwise reference equality extended so that two NaN values compare equal.
The last four conjuncts separate the two modes concretely: NaN-to-NaN is
not a change in reference mode although `===` rejects it, and two
structurally equal but distinct array objects compare equal only in
`valueEq` mode. -/
theorem areEqual_dispatch :
    (∀ a b : JSVal, areEqual a b true = isEqualV a b) ∧
    (∀ a b : JSVal,
      areEqual a b false = true ↔
        (strictEq a b = true ∨ (isNaNv a = true ∧ isNaNv b = true))) ∧
    areEqual (.num .nan) (.num .nan) false = true ∧
    strictEq (.num .nan) (.num .nan) = false ∧
    areEqual (.arr 0 (jsListOf [.num (.fin 1)])) (.arr 1 (jsListOf [.num (.fin 1)])) true
      = true ∧
    areEqual (.arr 0 (jsListOf [.num (.fin 1)])) (.arr 1 (jsListOf [.num (.fin 1)])) false
      = false := by
  refine ⟨fun a b => rfl, fun a b => ?_, by decide, by decide, by decide, by decide⟩
  simp [areEqual, simpleCompare, Bool.or_eq_true, Bool.and_eq_true]

/-! ## C3: the sentinel and the first firing -/

/-- **C3.** A newly registered watcher's `last` field is the sentinel
`INIT_WATCH_VALUE`, which is distinct from every legal expression result by
construction; on the watcher's first evaluation the comparison against the
sentinel always reports a change, and the listener is invoked with the new
value as both `newValue` and `oldValue` (the sentinel never escapes). -/
theorem watcher_sentinel_first_fire :
    (∀ (σ : Type) (f : σ → JSVal) (valueEq : Bool), (mkWatcher f valueEq).last = .init) ∧
    (∀ v : JSVal, LastVal.init ≠ LastVal.val v) ∧
    (∀ (σ : Type) (f : σ → JSVal) (valueEq : Bool) (s : σ),
      (runWatcherStep (mkWatcher f valueEq) s).1 = some (f s, f s)) :=
  ⟨fun _ _ _ => rfl, fun _ h => LastVal.noConfusion h, fun _ _ _ _ => rfl⟩

/-! ## C10: `$emit` and `stopPropagation` -/

theorem fireEventOnScope_spec (ls : List (Option ListenerRec)) :
    fireEventOnScope ls = (liveIds ls, scopeStops ls) := by
  induction ls with
  | nil => rfl
  | cons s rest ih =>
    cases s with
    | none => simpa [fireEventOnScope, liveIds, scopeStops] using ih
    | some l => simp [fireEventOnScope, liveIds, scopeStops, ih]

/-- **C10.** The listener ids fired by `$emit` are exactly the live
listeners, in slot order, of every scope in the chain up to and including
the first scope one of whose listeners calls `stopPropagation`. In
particular every listener registered on the scope currently being fired
runs (the flag is only consulted between scope hops, never between
listeners of one scope), and only the ancestors strictly above the stopping
scope are cut off. -/
theorem emit_stop_propagation (chain : List (List (Option ListenerRec))) :
    emitWalk chain = ((takeUntilStopped chain).map liveIds).flatten := by
  induction chain with
  | nil => rfl
  | cons s rest ih =>
    rw [emitWalk, fireEventOnScope_spec, takeUntilStopped]
    cases h : scopeStops s <;> simp [h, ih]

/-! ## C7: the member-name safety gate -/

/-- **C7.** `ensure.safeMemberName` fails exactly on the six disallowed
names, with a message beginning "Attempting to access a disallowed field";
names outside the set are never rejected. -/
theorem safe_member_name_gate :
    (∀ name, name ∈ disallowedMemberNames →
      safeMemberName name
        = .error "Attempting to access a disallowed field in Angular expressions!") ∧
    (∀ name, name ∉ disallowedMemberNames → safeMemberName name = .ok ()) ∧
    (∀ name msg, safeMemberName name = .error msg →
      ∃ rest, msg = "Attempting to access a disallowed field" ++ rest) := by
  refine ⟨fun name h => ?_, fun name h => ?_, fun name msg h => ?_⟩
  · simp [safeMemberName, h]
  · simp [safeMemberName, h]
  · by_cases hm : name ∈ disallowedMemberNames
    · simp only [safeMemberName, if_pos hm, Except.error.injEq] at h
      refine ⟨" in Angular expressions!", ?_⟩
      rw [← h]
      decide
    · simp [safeMemberName, hm] at h

/-- Witness for C7 at concrete names. -/
theorem safe_member_name_gate_witness :
    safeMemberName "constructor"
      = .error "Attempting to access a disallowed field in Angular expressions!" ∧
    safeMemberName "aValue" = .ok () ∧
    ∃ rest, "Attempting to access a disallowed field in Angular expressions!"
      = "Attempting to access a disallowed field" ++ rest :=
  ⟨safe_member_name_gate.1 "constructor" (by decide),
   safe_member_name_gate.2.1 "aValue" (by decide),
   safe_member_name_gate.2.2 "constructor" _
     (safe_member_name_gate.1 "constructor" (by decide))⟩

/-! ## C1: TTL exhaustion in `$digest` -/

theorem digestLoop_phase (step : Nat → Bool × Bool) :
    ∀ (t i : Nat), (digestLoop step i t).phase = none := by
  intro t
  induction t with
  | zero => intro i; rfl
  | succ t ih =>
    intro i
    rw [digestLoop]
    by_cases h : ((step i).1 || (step i).2) = true
    · by_cases ht : t = 0 <;> simp [h, ht, ih]
    · simp [h]

theorem digestLoop_throws (step : Nat → Bool × Bool) :
    ∀ (t i : Nat), 1 ≤ t →
      (∀ j, i ≤ j → j < i + t → ((step j).1 || (step j).2) = true) →
      digestLoop step i t
        = { phase := none, err := some "Maximum $watch TTL exceeded" } := by
  intro t
  induction t with
  | zero => omega
  | succ t ih =>
    intro i _ hall
    have hi : ((step i).1 || (step i).2) = true := hall i le_rfl (by omega)
    rw [digestLoop]
    by_cases ht : t = 0
    · simp [hi, ht]
    · have : digestLoop step (i + 1) t
          = { phase := none, err := some "Maximum $watch TTL exceeded" } := by
        refine ih (i + 1) (by omega) fun j hj1 hj2 => hall j (by omega) (by omega)
      simp [hi, ht, this]

theorem digestLoop_quiescent (step : Nat → Bool × Bool) :
    ∀ (t i : Nat),
      (∃ j, i ≤ j ∧ j < i + t ∧ ((step j).1 || (step j).2) = false) →
      (digestLoop step i t).err = none := by
  intro t
  induction t with
  | zero => intro i ⟨j, h1, h2, _⟩; omega
  | succ t ih =>
    intro i ⟨j, hj1, hj2, hj⟩
    rw [digestLoop]
    by_cases hi : ((step i).1 || (step i).2) = true
    · have hji : j ≠ i := fun h => by rw [h, hi] at hj; cases hj
      by_cases ht : t = 0
      · omega
      · have : (digestLoop step (i + 1) t).err = none :=
          ih (i + 1) ⟨j, by omega, by omega, hj⟩
        simp [hi, ht, this]
    · simp [hi]

/-- **C1.** If all of the first 10 iterations of the digest loop (async
flush + `$$digestOnce`) end still dirty or with a non-empty async queue,
`$digest` raises "Maximum $watch TTL exceeded" with the phase already
cleared; if some iteration among the first 10 reaches the fixed point, no
error is raised (and the phase is cleared on exit as well). -/
theorem digest_ttl (step : Nat → Bool × Bool) :
    ((∀ i, i < 10 → ((step i).1 || (step i).2) = true) →
      digestRun step = { phase := none, err := some "Maximum $watch TTL exceeded" }) ∧
    ((∃ i, i < 10 ∧ ((step i).1 || (step i).2) = false) →
      (digestRun step).err = none ∧ (digestRun step).phase = none) := by
  constructor
  · intro h
    exact digestLoop_throws step 10 0 (by omega) fun j _ hj => h j (by omega)
  · intro ⟨i, hi, hq⟩
    exact ⟨digestLoop_quiescent step 10 0 ⟨i, by omega, by omega, hq⟩,
      digestLoop_phase step 10 0⟩

/-- Witness for C1: a permanently dirty loop throws with the phase cleared;
an immediately quiescent one raises nothing. -/
theorem digest_ttl_witness :
    digestRun (fun _ => (true, false))
      = { phase := none, err := some "Maximum $watch TTL exceeded" } ∧
    (digestRun (fun _ => (false, false))).err = none ∧
    (digestRun (fun _ => (false, false))).phase = none :=
  ⟨(digest_ttl fun _ => (true, false)).1 (fun i _ => rfl),
   (digest_ttl fun _ => (false, false)).2 ⟨0, by omega, rfl⟩⟩

/-! ## C2: watcher registration order and removal during a digest pass -/

theorem getEraseP (p : Nat → Bool) :
    ∀ (l : List Nat) (k w : Nat), (l.eraseP p)[k]? = some w →
      l[k]? = some w ∨ l[k + 1]? = some w := by
  intro l
  induction l with
  | nil => intro k w h; simp [List.eraseP] at h
  | cons x xs ih =>
    intro k w h
    by_cases hp : p x = true
    · rw [List.eraseP_cons, hp, cond_true] at h
      right
      rwa [List.getElem?_cons_succ]
    · rw [List.eraseP_cons, Bool.eq_false_iff.mpr hp, cond_false] at h
      cases k with
      | zero =>
        left
        rw [List.getElem?_cons_zero] at h ⊢
        exact h
      | succ k =>
        rw [List.getElem?_cons_succ] at h
        rcases ih k w h with h2 | h2
        · left; rwa [List.getElem?_cons_succ]
        · right; rwa [List.getElem?_cons_succ]

theorem removeWatcher_lift (l : List Nat) (i k w : Nat)
    (h : (removeWatcher l i).1[k]? = some w) :
    l[k]? = some w ∨ l[k + 1]? = some w := by
  unfold removeWatcher at h
  by_cases hc : l.contains i = true
  · rw [if_pos hc] at h
    exact getEraseP _ l k w h
  · rw [if_neg hc] at h
    exact .inl h

theorem removeAll_lift :
    ∀ (ids l : List Nat) (k w : Nat), (removeAll l ids).1[k]? = some w →
      ∃ k2, k ≤ k2 ∧ l[k2]? = some w := by
  intro ids
  induction ids with
  | nil => intro l k w h; exact ⟨k, le_rfl, h⟩
  | cons i is ih =>
    intro l k w h
    obtain ⟨k2, hk2, h2⟩ := ih (removeWatcher l i).1 k w h
    rcases removeWatcher_lift l i k2 w h2 with h3 | h3
    · exact ⟨k2, hk2, h3⟩
    · exact ⟨k2 + 1, by omega, h3⟩

theorem removeWatcher_nodup (l : List Nat) (i : Nat) (h : l.Nodup) :
    (removeWatcher l i).1.Nodup := by
  unfold removeWatcher
  by_cases hc : l.contains i = true
  · rw [if_pos hc]
    exact h.sublist (List.eraseP_sublist l)
  · rwa [if_neg hc]

theorem removeAll_nodup :
    ∀ (ids l : List Nat), l.Nodup → (removeAll l ids).1.Nodup := by
  intro ids
  induction ids with
  | nil => intro l h; exact h
  | cons i is ih => intro l h; exact ih _ (removeWatcher_nodup l i h)

theorem removeWatcher_found_false (l : List Nat) (i : Nat)
    (h : (removeWatcher l i).2 = false) : (removeWatcher l i).1 = l := by
  unfold removeWatcher at h ⊢
  by_cases hc : l.contains i = true
  · rw [if_pos hc] at h; cases h
  · rw [if_neg hc]

theorem removeAll_found_false :
    ∀ (ids l : List Nat), (removeAll l ids).2 = false → (removeAll l ids).1 = l := by
  intro ids
  induction ids with
  | nil => intro l _; rfl
  | cons i is ih =>
    intro l h
    rw [removeAll] at h ⊢
    simp only [Bool.or_eq_false_iff] at h
    have h1 := removeWatcher_found_false l i h.1
    rw [h1] at h ⊢
    exact ih l h.2

theorem nodup_getElem?_ne (l : List Nat) (h : l.Nodup) {i j a b : Nat} (hij : i ≠ j)
    (hi : l[i]? = some a) (hj : l[j]? = some b) : a ≠ b := by
  intro hab
  subst hab
  have hlen : i < l.length := by
    by_contra hle
    rw [List.getElem?_eq_none (by omega)] at hi
    cases hi
  exact hij (List.getElem?_inj hlen h (hi.trans hj.symm))

theorem digestPassAux_stopped (beh : Nat → VisitBeh) (c : Nat) (st : PassState)
    (h : st.stopped = true) : digestPassAux beh c st = st := by
  cases c with
  | zero => rfl
  | succ c => rw [digestPassAux, if_pos h]

theorem visitWatcher_exec (beh : Nat → VisitBeh) (c : Nat) (st : PassState) :
    ∃ t, (visitWatcher beh c st).executed = st.executed ++ t := by
  unfold visitWatcher
  cases h : st.watchers[c]? with
  | none => exact ⟨[], by simp⟩
  | some w =>
    by_cases hd : (beh c).dirty = true
    · exact ⟨[w], by simp [hd]⟩
    · simp only [hd]
      by_cases hld :
          (if (removeAll st.watchers (beh c).watchRemoves).2 = true then none
            else st.lastDirty) = some w
      · exact ⟨[w], by simp [hld]⟩
      · exact ⟨[w], by simp [hld]⟩

theorem digestPassAux_exec (beh : Nat → VisitBeh) :
    ∀ (c : Nat) (st : PassState),
      ∃ t, (digestPassAux beh c st).executed = st.executed ++ t := by
  intro c
  induction c with
  | zero => intro st; exact ⟨[], by simp [digestPassAux]⟩
  | succ c ih =>
    intro st
    rw [digestPassAux]
    by_cases hs : st.stopped = true
    · exact ⟨[], by simp [hs]⟩
    · have hs' : st.stopped = false := by revert hs; cases st.stopped <;> simp
      simp only [hs', Bool.false_eq_true, if_false]
      obtain ⟨t1, h1⟩ := visitWatcher_exec beh c st
      obtain ⟨t2, h2⟩ := ih (visitWatcher beh c st)
      exact ⟨t1 ++ t2, by rw [h2, h1, List.append_assoc]⟩


theorem digestPass_no_skip_aux (beh : Nat → VisitBeh)
    (hW : ∀ c, (beh c).watchRemoves = []) :
    ∀ (c : Nat) (st : PassState),
      st.stopped = false →
      st.watchers.Nodup →
      (st.removedAny = true →
        ∀ j w, j < c → st.watchers[j]? = some w → st.lastDirty ≠ some w) →
      (digestPassAux beh c st).removedAny = true →
      ∀ w, w ∈ (digestPassAux beh c st).watchers →
        w ∈ (digestPassAux beh c st).executed ∨
          ∃ k, c ≤ k ∧ st.watchers[k]? = some w := by
  intro c
  induction c with
  | zero =>
    intro st _ _ _ _ w hw
    right
    rw [digestPassAux] at hw
    obtain ⟨k, hk⟩ := List.mem_iff_getElem?.mp hw
    exact ⟨k, Nat.zero_le k, hk⟩
  | succ c ih =>
    intro st hstop hnodup hinv hrem w hw
    simp only [digestPassAux, hstop, Bool.false_eq_true, if_false] at hrem hw ⊢
    have hWc := hW c
    cases hge : st.watchers[c]? with
    | none =>
      have hst' : visitWatcher beh c st = st := by
        unfold visitWatcher; rw [hge]
      rw [hst'] at hrem hw ⊢
      rcases ih st hstop hnodup
          (fun hr j v hj hgj => hinv hr j v (by omega) hgj) hrem w hw with hex | ⟨k, hk, hgk⟩
      · exact .inl hex
      · by_cases hkc : k = c
        · subst hkc; rw [hge] at hgk; cases hgk
        · exact .inr ⟨k, by omega, hgk⟩
    | some w0 =>
      by_cases hd : (beh c).dirty = true
      · -- dirty visit
        have hwatch : (visitWatcher beh c st).watchers
            = (removeAll st.watchers (beh c).listenerRemoves).1 := by
          simp [visitWatcher, hge, hWc, removeAll, hd]
        have hldirty : (visitWatcher beh c st).lastDirty
            = (if (removeAll st.watchers (beh c).listenerRemoves).2 = true then none
              else some w0) := by
          simp [visitWatcher, hge, hWc, removeAll, hd]
        have hexec2 : (visitWatcher beh c st).executed = st.executed ++ [w0] := by
          simp [visitWatcher, hge, hWc, removeAll, hd]
        have hstop2 : (visitWatcher beh c st).stopped = false := by
          simp [visitWatcher, hge, hWc, removeAll, hd]
        have hnodup2 : (visitWatcher beh c st).watchers.Nodup := by
          rw [hwatch]; exact removeAll_nodup _ _ hnodup
        have hinv2 : (visitWatcher beh c st).removedAny = true →
            ∀ j v, j < c → (visitWatcher beh c st).watchers[j]? = some v →
              (visitWatcher beh c st).lastDirty ≠ some v := by
          intro _ j v hj hgj
          rw [hwatch] at hgj
          rw [hldirty]
          by_cases hf2 : (removeAll st.watchers (beh c).listenerRemoves).2 = true
          · simp [hf2]
          · rw [if_neg hf2]
            rw [removeAll_found_false _ _ (Bool.eq_false_iff.mpr hf2)] at hgj
            intro hcon
            exact nodup_getElem?_ne st.watchers hnodup (show c ≠ j by omega) hge hgj
              (Option.some.inj hcon)
        rcases ih _ hstop2 hnodup2 hinv2 hrem w hw with hex | ⟨k, hk, hgk⟩
        · exact .inl hex
        · rw [hwatch] at hgk
          obtain ⟨k2, hk2, hg2⟩ := removeAll_lift _ _ _ _ hgk
          by_cases hkc : k2 = c
          · rw [hkc, hge] at hg2
            left
            obtain ⟨t, ht⟩ := digestPassAux_exec beh c (visitWatcher beh c st)
            rw [ht, hexec2]
            have hww : w = w0 := (Option.some.inj hg2).symm
            subst hww
            simp
          · exact .inr ⟨k2, by omega, hg2⟩
      · by_cases hld : st.lastDirty = some w0
        · -- the clean short-circuit: impossible after a removal
          have hstop2 : (visitWatcher beh c st).stopped = true := by
            simp [visitWatcher, hge, hWc, removeAll, hd, hld]
          have hrem2 : (visitWatcher beh c st).removedAny = st.removedAny := by
            simp [visitWatcher, hge, hWc, removeAll, hd, hld]
          rw [digestPassAux_stopped beh c _ hstop2] at hrem hw ⊢
          rw [hrem2] at hrem
          exact absurd hld (hinv hrem c w0 (by omega) hge)
        · -- clean, no stop
          have hwatch : (visitWatcher beh c st).watchers = st.watchers := by
            simp [visitWatcher, hge, hWc, removeAll, hd, hld]
          have hldirty : (visitWatcher beh c st).lastDirty = st.lastDirty := by
            simp [visitWatcher, hge, hWc, removeAll, hd, hld]
          have hrem2 : (visitWatcher beh c st).removedAny = st.removedAny := by
            simp [visitWatcher, hge, hWc, removeAll, hd, hld]
          have hexec2 : (visitWatcher beh c st).executed = st.executed ++ [w0] := by
            simp [visitWatcher, hge, hWc, removeAll, hd, hld]
          have hstop2 : (visitWatcher beh c st).stopped = false := by
            simp [visitWatcher, hge, hWc, removeAll, hd, hld]
          have hnodup2 : (visitWatcher beh c st).watchers.Nodup := by
            rw [hwatch]; exact hnodup
          have hinv2 : (visitWatcher beh c st).removedAny = true →
              ∀ j v, j < c → (visitWatcher beh c st).watchers[j]? = some v →
                (visitWatcher beh c st).lastDirty ≠ some v := by
            intro hr j v hj hgj
            rw [hwatch] at hgj
            rw [hldirty]
            rw [hrem2] at hr
            exact hinv hr j v (by omega) hgj
          rcases ih _ hstop2 hnodup2 hinv2 hrem w hw with hex | ⟨k, hk, hgk⟩
          · exact .inl hex
          · rw [hwatch] at hgk
            by_cases hkc : k = c
            · rw [hkc, hge] at hgk
              left
              obtain ⟨t, ht⟩ := digestPassAux_exec beh c (visitWatcher beh c st)
              rw [ht, hexec2]
              have hww : w = w0 := (Option.some.inj hgk).symm
              subst hww
              simp
            · exact .inr ⟨k, by omega, hgk⟩

theorem quiet_pass :
    ∀ (c : Nat) (l : List Nat) (e : List Nat),
      digestPassAux quietVisit c
        { watchers := l, lastDirty := none, removedAny := false,
          executed := e, stopped := false }
      = { watchers := l, lastDirty := none, removedAny := false,
          executed := e ++ (l.take c).reverse, stopped := false } := by
  intro c
  induction c with
  | zero => intro l e; simp [digestPassAux]
  | succ c ih =>
    intro l e
    rw [digestPassAux]
    simp only [Bool.false_eq_true, if_false]
    cases hge : l[c]? with
    | none =>
      have hst' : visitWatcher quietVisit c
          { watchers := l, lastDirty := none, removedAny := false,
            executed := e, stopped := false }
          = { watchers := l, lastDirty := none, removedAny := false,
              executed := e, stopped := false } := by
        unfold visitWatcher; rw [hge]
      rw [hst', ih]
      have hlen : l.length ≤ c := by
        by_contra hlt
        rw [List.getElem?_eq_getElem (by omega)] at hge
        cases hge
      rw [List.take_of_length_le hlen, List.take_of_length_le (by omega)]
    | some w =>
      have hst' : visitWatcher quietVisit c
          { watchers := l, lastDirty := none, removedAny := false,
            executed := e, stopped := false }
          = { watchers := l, lastDirty := none, removedAny := false,
              executed := e ++ [w], stopped := false } := by
        simp [visitWatcher, hge, quietVisit, removeAll]
      rw [hst', ih]
      have hlt : c < l.length := by
        by_contra hle
        rw [List.getElem?_eq_none (by omega)] at hge
        cases hge
      have htake : l.take (c + 1) = l.take c ++ [w] := by
        rw [List.take_succ, hge]
        rfl
      rw [htake]
      simp

/-- **C2 (amended).** `$watch` prepends the new watcher record (and clears
the short-circuit marker), a digest pass with no changes and no removals
evaluates the watchers in reverse registration order, and — the amended
no-skip property — in any single-scope digest pass in which watcher
destructors are invoked only from listener functions (never from inside a
watch function), if some watcher was removed during the pass then every
watcher still registered at the end of the pass was evaluated during it:
removal cannot cause a still-registered watcher to be skipped. (The
unamended claim, which also allows destructor calls from inside a dirty
watch function, is refuted by `watch_removal_skip_counterexample`.) -/
theorem watch_prepend_reverse_no_skip :
    (∀ (watchers : List Nat) (w : Nat),
      watchRegister watchers w = (w :: watchers, none)) ∧
    (∀ l : List Nat, (digestOncePass quietVisit l none).executed = l.reverse) ∧
    (∀ (beh : Nat → VisitBeh) (l : List Nat) (ld : Option Nat),
      l.Nodup →
      (∀ c, (beh c).watchRemoves = []) →
      (digestOncePass beh l ld).removedAny = true →
      ∀ w, w ∈ (digestOncePass beh l ld).watchers →
        w ∈ (digestOncePass beh l ld).executed) := by
  refine ⟨fun _ _ => rfl, fun l => ?_, fun beh l ld hnodup hW hrem w hw => ?_⟩
  · rw [digestOncePass, quiet_pass]
    simp [List.take_length]
  · rcases digestPass_no_skip_aux beh hW l.length
        { watchers := l, lastDirty := ld, removedAny := false,
          executed := [], stopped := false }
        rfl hnodup (fun hr => by cases hr) hrem w hw with hex | ⟨k, hk, hgk⟩
    · exact hex
    · rw [List.getElem?_eq_none (by simpa using hk)] at hgk
      cases hgk

/-- **C2 counterexample.** Four watchers, ids `[0,1,2,3]` listed front-first
as `$$watchers` (id 3 was registered first, sits at index 3 and is visited
first by the reverse iteration). The visit of watcher 3 reports a change
and its *watch function* calls the destructor of watcher 2 — the JS trace
of `d3 = scope.$watch(s => { d2(); return s.aValue }, noop)` registered
before `d2` and two later watchers, with `s.aValue` constant. The splice
shifts watcher 3 from index 3 to index 2, `$$lastDirtyWatch` is set to
watcher 3 *after* the destructor ran, the countdown revisits watcher 3,
finds it clean and equal to `$$lastDirtyWatch` and stops the pass: watchers
0 and 1, still registered and following the removed watcher 2 in the
reverse iteration order, are never evaluated. This refutes the claim that a
removal during the pass cannot cause a following watcher to be skipped. -/
theorem watch_removal_skip_counterexample :
    (digestOncePass removeInWatchFnBeh [0, 1, 2, 3] none).removedAny = true ∧
    0 ∈ (digestOncePass removeInWatchFnBeh [0, 1, 2, 3] none).watchers ∧
    1 ∈ (digestOncePass removeInWatchFnBeh [0, 1, 2, 3] none).watchers ∧
    0 ∉ (digestOncePass removeInWatchFnBeh [0, 1, 2, 3] none).executed ∧
    1 ∉ (digestOncePass removeInWatchFnBeh [0, 1, 2, 3] none).executed := by
  decide

/-- Witness for the amended C2 at concrete inputs: registration prepends;
a quiet pass runs `[0,1,2]` in reverse order; and in a pass where watcher 1
(visited first) is dirty and its listener removes watcher 0, the surviving
watcher 1 is evaluated. -/
theorem watch_prepend_reverse_no_skip_witness :
    watchRegister [1, 0] 2 = ([2, 1, 0], none) ∧
    (digestOncePass quietVisit [0, 1, 2] none).executed = [0, 1, 2].reverse ∧
    1 ∈ (digestOncePass removeInListenerBeh [0, 1] none).executed :=
  ⟨watch_prepend_reverse_no_skip.1 [1, 0] 2,
   watch_prepend_reverse_no_skip.2.1 [0, 1, 2],
   watch_prepend_reverse_no_skip.2.2 removeInListenerBeh [0, 1] none (by decide)
     (fun c => by by_cases h : c = 1 <;> simp [removeInListenerBeh, h])
     (by decide) 1 (by decide)⟩

/-! ## C6: undefined operands in compiled arithmetic -/

theorem numMul_nan_left (y : JSNum) : numMul .nan y = .nan := by cases y <;> rfl

theorem numMul_nan_right (x : JSNum) : numMul x .nan = .nan := by cases x <;> rfl

/-- **C6.** In the code emitted for binary `+` and `-`, an undefined operand
is substituted by 0 (conjuncts 1-4: the evaluation equals the one with the
operand replaced by 0; conjuncts 5-6: both-undefined yields 0). Every other
binary operator receives its operands unwrapped and follows host semantics
(conjunct 7); in particular `*` with an undefined operand evaluates to NaN
(conjuncts 8-9). Unary `+` and `-` applied to undefined substitute 0
(conjuncts 10-11). -/
theorem compiled_undefined_arithmetic :
    (∀ b : JSVal, compiledBinaryEval "+" .undef b = compiledBinaryEval "+" (.num (.fin 0)) b) ∧
    (∀ a : JSVal, compiledBinaryEval "+" a .undef = compiledBinaryEval "+" a (.num (.fin 0))) ∧
    (∀ b : JSVal, compiledBinaryEval "-" .undef b = compiledBinaryEval "-" (.num (.fin 0)) b) ∧
    (∀ a : JSVal, compiledBinaryEval "-" a .undef = compiledBinaryEval "-" a (.num (.fin 0))) ∧
    compiledBinaryEval "+" .undef .undef = .num (.fin 0) ∧
    compiledBinaryEval "-" .undef .undef = .num (.fin 0) ∧
    (∀ op : String, op ≠ "+" → op ≠ "-" →
      ∀ a b : JSVal, compiledBinaryEval op a b = hostBinary op a b) ∧
    (∀ b : JSVal, compiledBinaryEval "*" .undef b = .num .nan) ∧
    (∀ a : JSVal, compiledBinaryEval "*" a .undef = .num .nan) ∧
    compiledUnaryEval "+" .undef = .num (.fin 0) ∧
    compiledUnaryEval "-" .undef = .num (.fin 0) := by
  refine ⟨fun b => rfl, fun a => rfl, fun b => rfl, fun a => rfl, ?_, ?_, ?_, ?_, ?_, rfl, ?_⟩
  · simp [compiledBinaryEval, hostBinary, jsAdd, toPrimitiveV, toNumber, numAdd, ifDefined]
  · simp [compiledBinaryEval, hostBinary, numSub, numNeg, toNumber, numAdd, ifDefined]
  · intro op h1 h2 a b
    rw [compiledBinaryEval, if_neg]
    intro hor
    rcases hor with h | h
    · exact h1 h
    · exact h2 h
  · intro b
    simp [compiledBinaryEval, hostBinary, toNumber, numMul_nan_left]
  · intro a
    simp [compiledBinaryEval, hostBinary, toNumber, numMul_nan_right]
  · simp [compiledUnaryEval, hostUnary, ifDefined, toNumber, numNeg]

/-- Witness for C6's host-semantics conjunct at a concrete non-additive
operator. -/
theorem compiled_undefined_arithmetic_witness :
    compiledBinaryEval "*" (.bool true) (.num (.fin 2))
      = hostBinary "*" (.bool true) (.num (.fin 2)) :=
  compiled_undefined_arithmetic.2.2.2.2.2.2.1 "*" (by decide) (by decide)
    (.bool true) (.num (.fin 2))

/-! ## C5: when a compiled expression carries `inputs` -/

/-- **C5 counterexample.** The one-statement program `a + b` has
`toWatch = [a, b]` — two nodes, so not "exactly one node distinct from the
statement" — yet the compiled expression carries an `inputs` list (with one
input evaluator per `toWatch` node). This refutes the claimed
"if and only if". -/
theorem inputs_iff_counterexample :
    hasInputs (fun _ => false) [.binaryE "+" (.identifier "a") (.identifier "b")] = true ∧
    (toWatchOf (fun _ => false) (.binaryE "+" (.identifier "a") (.identifier "b"))).length
      = 2 ∧
    compiledInputs (fun _ => false) [.binaryE "+" (.identifier "a") (.identifier "b")]
      = [.identifier "a", .identifier "b"] := by
  decide

/-- **C5 (amended).** A compiled expression carries an `inputs` list if and
only if its program consists of exactly one statement whose `toWatch` list
is non-empty and is not exactly the statement itself; in that case each
`toWatch` node is compiled into its own input evaluator (the `inputs` list
is exactly the statement's `toWatch` list). Programs with zero or several
statements never carry `inputs`. -/
theorem inputs_condition (stateful : String → Bool) (stmt : JsAst) :
    (hasInputs stateful [stmt] = true ↔
      (toWatchOf stateful stmt ≠ [] ∧ toWatchOf stateful stmt ≠ [stmt])) ∧
    (hasInputs stateful [stmt] = true →
      compiledInputs stateful [stmt] = toWatchOf stateful stmt) ∧
    (∀ body : List JsAst, body.length ≠ 1 → hasInputs stateful body = false) := by
  refine ⟨?_, ?_, ?_⟩
  · rcases hc : toWatchOf stateful stmt with _ | ⟨x, _ | ⟨y, t⟩⟩
    · simp [hasInputs, compiledInputs, getInputs, hc]
    · by_cases hx : x = stmt
      · subst hx
        simp [hasInputs, compiledInputs, getInputs, hc]
      · simp [hasInputs, compiledInputs, getInputs, hc, hx]
    · simp [hasInputs, compiledInputs, getInputs, hc]
  · intro h
    rcases hc : toWatchOf stateful stmt with _ | ⟨x, t⟩
    · rw [hasInputs, compiledInputs, getInputs, hc] at h
      simp at h
    · rw [compiledInputs, getInputs, hc]
      rw [hasInputs, compiledInputs, getInputs, hc] at h
      by_cases hcond : (x :: t).length = 1 ∧ (x :: t).head? = some stmt
      · rw [if_pos hcond] at h
        simp at h
      · rw [if_neg hcond] at h ⊢
        rfl
  · intro body hlen
    rcases body with _ | ⟨s, _ | ⟨s2, t⟩⟩
    · rfl
    · simp at hlen
    · rfl

/-- Witness for the amended C5: the one-statement program `-a` (whose
`toWatch` is the identifier `a`, a single node distinct from the statement)
carries `inputs = [a]`; the empty program carries none. -/
theorem inputs_condition_witness :
    hasInputs (fun _ => false) [.unaryE "-" (.identifier "a")] = true ∧
    compiledInputs (fun _ => false) [.unaryE "-" (.identifier "a")] = [.identifier "a"] ∧
    hasInputs (fun _ => false) [] = false :=
  ⟨(inputs_condition (fun _ => false) (.unaryE "-" (.identifier "a"))).1.mpr
      ⟨by decide, by decide⟩,
   (inputs_condition (fun _ => false) (.unaryE "-" (.identifier "a"))).2.1
      ((inputs_condition (fun _ => false) (.unaryE "-" (.identifier "a"))).1.mpr
        ⟨by decide, by decide⟩),
   (inputs_condition (fun _ => false) (.identifier "a")).2.2 [] (by decide)⟩

/-! ## C8: number lexing and the exponent -/

theorem readNum_digits :
    ∀ ds : List Char,
      (∀ c ∈ ds, c ∈ ['0', '1', '2', '3', '4', '5', '6', '7', '8', '9']) →
      ∀ (rest acc : List Char),
        readNumberAux (ds ++ rest) acc = readNumberAux rest (acc ++ ds) := by
  intro ds
  induction ds with
  | nil => intro _ rest acc; simp
  | cons c cs ih =>
    intro hmem rest acc
    have hc : c ∈ ['0', '1', '2', '3', '4', '5', '6', '7', '8', '9'] := hmem c (by simp)
    have hlow : c.toLower = c := by fin_cases hc <;> rfl
    have hdig : c.isDigit = true := by fin_cases hc <;> rfl
    rw [List.cons_append, readNumberAux, hlow]
    rw [if_pos (by rw [hdig]; simp)]
    rw [ih (fun x hx => hmem x (by simp [hx])) rest (acc ++ [c])]
    simp

theorem lexLoop_nil (fuel : Nat) (acc : List Token) : lexLoop fuel [] acc = .ok acc := by
  cases fuel <;> rfl

set_option maxHeartbeats 4000000 in
theorem lexJs_of_readNumber_ok (c : Char) (cs out : List Char)
    (hdig : c.isDigit = true) (hok : readNumberAux (c :: cs) [] = .ok (out, [])) :
    lexJs (String.mk (c :: cs)) = .ok [Token.ofNumber (String.mk out)] := by
  rw [lexJs]
  have hl : (String.mk (c :: cs)).toList = c :: cs := rfl
  rw [hl, List.length_cons, lexLoop, lexStep]
  rw [if_pos (by rw [hdig]; simp)]
  rw [hok]
  show lexLoop cs.length [] ([] ++ [Token.ofNumber (String.mk out)]) = _
  rw [lexLoop_nil]
  rfl

set_option maxHeartbeats 4000000 in
theorem lexJs_of_readNumber_error (c : Char) (cs : List Char) (e : String)
    (hdig : c.isDigit = true) (herr : readNumberAux (c :: cs) [] = .error e) :
    lexJs (String.mk (c :: cs)) = .error e := by
  rw [lexJs]
  have hl : (String.mk (c :: cs)).toList = c :: cs := rfl
  rw [hl, List.length_cons, lexLoop, lexStep]
  rw [if_pos (by rw [hdig]; simp)]
  rw [herr]

theorem readNum_e_step (acc tail : List Char)
    (h : isExpOperatorAtEnd tail.head? = true) :
    readNumberAux ('e' :: tail) acc = readNumberAux tail (acc ++ ['e']) := by
  simp only [readNumberAux]
  rw [if_neg (by decide), if_pos (by rw [h]; decide)]
  rfl

theorem readNum_sign_step (acc tail : List Char) (sgn : Char)
    (hsgn : sgn = '+' ∨ sgn = '-')
    (hprev : acc.getLast? = some 'e')
    (hnext : ∃ d, tail.head? = some d ∧ d.isDigit = true) :
    readNumberAux (sgn :: tail) acc = readNumberAux tail (acc ++ [sgn]) := by
  obtain ⟨d, hd1, hd2⟩ := hnext
  rcases hsgn with rfl | rfl <;>
  · simp only [readNumberAux]
    rw [if_neg (by decide)]
    rw [if_neg (fun hc => absurd (Bool.and_eq_true .. |>.mp hc).1 (by decide))]
    rw [if_pos (by simp [hprev, hd1, hd2, isExpOperatorCh])]
    rfl

theorem readNum_sign_error (acc tail : List Char) (sgn : Char)
    (hsgn : sgn = '+' ∨ sgn = '-')
    (hprev : acc.getLast? = some 'e')
    (hnext : ∀ x, tail.head? = some x → x.isDigit = false) :
    readNumberAux (sgn :: tail) acc = .error "Invalid exponent!" := by
  have hmatch : (match tail.head? with
      | some n => n.isDigit
      | none => false) = false := by
    cases htl : tail.head? with
    | none => rfl
    | some x => exact hnext x htl
  rcases hsgn with rfl | rfl <;>
  · simp only [readNumberAux]
    rw [if_neg (by decide)]
    rw [if_neg (fun hc => absurd (Bool.and_eq_true .. |>.mp hc).1 (by decide))]
    rw [if_neg (by rw [hmatch]; simp)]
    rw [if_pos (by rw [hprev]; simp [isExpOperatorCh])]

/-- **C8 (amended).** Scientific-notation lexing. (1) Well-formed forms are
accepted: for digit strings `d::ds1` and `d2::ds2` and a sign part that is
empty, `+` or `-`, the input `d::ds1 ++ "e" ++ sign ++ d2::ds2` lexes to the
single number token with that exact text. (2) An explicit sign after `e`
that is not followed by a digit makes the whole lex fail with
`Invalid exponent!`. (A bare `e` not followed by a digit does NOT fail — see
the counterexample.) -/
theorem lexer_scientific_form :
    (∀ (d d2 : Char) (ds1 ds2 sign : List Char),
        d ∈ ['0', '1', '2', '3', '4', '5', '6', '7', '8', '9'] →
        (∀ c ∈ ds1, c ∈ ['0', '1', '2', '3', '4', '5', '6', '7', '8', '9']) →
        d2 ∈ ['0', '1', '2', '3', '4', '5', '6', '7', '8', '9'] →
        (∀ c ∈ ds2, c ∈ ['0', '1', '2', '3', '4', '5', '6', '7', '8', '9']) →
        (sign = [] ∨ sign = ['+'] ∨ sign = ['-']) →
        lexJs (String.mk (d :: (ds1 ++ 'e' :: (sign ++ d2 :: ds2)))) =
          .ok [Token.ofNumber (String.mk (d :: (ds1 ++ 'e' :: (sign ++ d2 :: ds2))))]) ∧
    (∀ (d sgn : Char) (ds1 rest : List Char),
        d ∈ ['0', '1', '2', '3', '4', '5', '6', '7', '8', '9'] →
        (∀ c ∈ ds1, c ∈ ['0', '1', '2', '3', '4', '5', '6', '7', '8', '9']) →
        (sgn = '+' ∨ sgn = '-') →
        (∀ x, rest.head? = some x → x.isDigit = false) →
        lexJs (String.mk (d :: (ds1 ++ 'e' :: sgn :: rest))) =
          .error "Invalid exponent!") := by
  constructor
  · intro d d2 ds1 ds2 sign hd h1 hd2 h2 hsign
    have hdd : d.isDigit = true := by fin_cases hd <;> rfl
    have hd2d : d2.isDigit = true := by fin_cases hd2 <;> rfl
    apply lexJs_of_readNumber_ok _ _ _ hdd
    have hds1 : ∀ c ∈ d :: ds1, c ∈ ['0', '1', '2', '3', '4', '5', '6', '7', '8', '9'] := by
      intro c hc
      rcases List.mem_cons.mp hc with rfl | hc
      · exact hd
      · exact h1 c hc
    have hds2 : ∀ c ∈ d2 :: ds2, c ∈ ['0', '1', '2', '3', '4', '5', '6', '7', '8', '9'] := by
      intro c hc
      rcases List.mem_cons.mp hc with rfl | hc
      · exact hd2
      · exact h2 c hc
    have step1 := readNum_digits (d :: ds1) hds1 ('e' :: (sign ++ d2 :: ds2)) []
    simp only [List.cons_append, List.nil_append] at step1
    rw [step1]
    have hexp : isExpOperatorAtEnd (sign ++ d2 :: ds2).head? = true := by
      rcases hsign with rfl | rfl | rfl
      · simp [isExpOperatorAtEnd, isExpOperatorCh, hd2d]
      · simp [isExpOperatorAtEnd, isExpOperatorCh]
      · simp [isExpOperatorAtEnd, isExpOperatorCh]
    rw [readNum_e_step _ _ hexp]
    rcases hsign with rfl | rfl | rfl
    · simp only [List.nil_append]
      have step3 := readNum_digits (d2 :: ds2) hds2 [] ((d :: ds1) ++ ['e'])
      rw [List.append_nil] at step3
      rw [step3]
      simp [readNumberAux, List.append_assoc]
    · simp only [List.singleton_append]
      rw [readNum_sign_step _ _ '+' (Or.inl rfl) (List.getLast?_concat _) ⟨d2, List.head?_cons, hd2d⟩]
      have step3 := readNum_digits (d2 :: ds2) hds2 [] (((d :: ds1) ++ ['e']) ++ ['+'])
      rw [List.append_nil] at step3
      rw [step3]
      simp [readNumberAux, List.append_assoc]
    · simp only [List.singleton_append]
      rw [readNum_sign_step _ _ '-' (Or.inr rfl) (List.getLast?_concat _) ⟨d2, List.head?_cons, hd2d⟩]
      have step3 := readNum_digits (d2 :: ds2) hds2 [] (((d :: ds1) ++ ['e']) ++ ['-'])
      rw [List.append_nil] at step3
      rw [step3]
      simp [readNumberAux, List.append_assoc]
  · intro d sgn ds1 rest hd h1 hsgn hrest
    have hdd : d.isDigit = true := by fin_cases hd <;> rfl
    apply lexJs_of_readNumber_error _ _ _ hdd
    have hds1 : ∀ c ∈ d :: ds1, c ∈ ['0', '1', '2', '3', '4', '5', '6', '7', '8', '9'] := by
      intro c hc
      rcases List.mem_cons.mp hc with rfl | hc
      · exact hd
      · exact h1 c hc
    have step1 := readNum_digits (d :: ds1) hds1 ('e' :: sgn :: rest) []
    simp only [List.cons_append, List.nil_append] at step1
    rw [step1]
    have hexp : isExpOperatorAtEnd (sgn :: rest).head? = true := by
      rcases hsgn with rfl | rfl <;> rfl
    rw [readNum_e_step _ _ hexp]
    exact readNum_sign_error _ _ sgn hsgn (List.getLast?_concat _) hrest

/-- **C8 counterexample.** A bare `e` with no digit after it does not make
the lexer fail: at end of input (`"1e"`) the out-of-bounds peek coerces to
`true`, the `e` is absorbed, and the token's value is `Number("1e") = NaN`;
before a non-digit (`"1ex"`) the number simply ends and `ex` lexes as an
identifier. Both refute the claim that every `e` not followed by a digit
raises `Invalid exponent!`. -/
theorem lexer_trailing_e_counterexample :
    lexJs "1e" = .ok [Token.ofNumber "1e"] ∧
    Token.ofNumber "1e" = { text := "1e", value := some (.num .nan) } ∧
    lexJs "1ex" = .ok [Token.ofNumber "1", { text := "ex", identifier := true }] :=
  ⟨rfl, rfl, rfl⟩

/-- Witness for `lexer_scientific_form`: the sign branch at `"42e+5"` and
the error branch at `"7e-"`. -/
theorem lexer_scientific_form_witness :
    lexJs "42e+5" = .ok [Token.ofNumber "42e+5"] ∧
    lexJs "7e-" = .error "Invalid exponent!" :=
  ⟨lexer_scientific_form.1 '4' '5' ['2'] [] ['+'] (by decide) (by decide)
      (by decide) (by decide) (Or.inr (Or.inl rfl)),
    lexer_scientific_form.2 '7' '-' [] [] (by decide) (by decide)
      (Or.inr rfl) (fun x hx => Option.noConfusion hx)⟩

/-! ## C9: filter with a primitive criterion -/

theorem createPredicateFn_prim (e : JSVal) (he : isObjectV e = false)
    (comp : JSVal → JSVal → Bool) (x : JSVal) :
    createPredicateFn e comp x = deepCompareV comp x e true false := by
  simp [createPredicateFn, he]

theorem deepCompareFuel_prim_step (comp : JSVal → JSVal → Bool) (fuel : Nat)
    (x e : JSVal) (map iw : Bool)
    (hneg : isNegStr e = false) (ha : isArrayV x = false)
    (ho : isObjectV x = false) :
    deepCompareFuel comp (fuel+1) x e map iw = comp x e := by
  simp [deepCompareFuel, hneg, ha, ho]

theorem deepCompareFuel_neg_step (comp : JSVal → JSVal → Bool) (fuel : Nat)
    (x e : JSVal) (map iw : Bool) (hneg : isNegStr e = true) :
    deepCompareFuel comp (fuel+1) x e map iw =
      !(deepCompareFuel comp fuel x (negRest e) map false) := by
  rw [deepCompareFuel, if_pos hneg]

/-- **C9 (amended).** Filter with a primitive criterion: (1) undefined never
matches a NON-NEGATED primitive criterion (negated ones it does match — see
the counterexample); (2) among non-negated primitive criteria, null matches
exactly the null criterion; (3) in particular the string `"null"` does not
match the null value; (4) a criterion `"!" ++ s` matches exactly the items
`s` does not match, for every item including undefined; (5) a non-negated
string criterion against a string item is the case-insensitive substring
test on the two coerced strings; (6) the filter keeps exactly the items
whose lowercased text contains the lowercased criterion. -/
theorem filter_primitive_matching :
    (∀ e : JSVal, isObjectV e = false → isNegStr e = false →
        createPredicateFn e primitiveComparator .undef = false) ∧
    (∀ e : JSVal, isObjectV e = false → isNegStr e = false →
        (createPredicateFn e primitiveComparator .null = true ↔ e = .null)) ∧
    createPredicateFn (.str "null") primitiveComparator .null = false ∧
    (∀ (x : JSVal) (s : String),
        createPredicateFn (.str ("!" ++ s)) primitiveComparator x =
          !(createPredicateFn (.str s) primitiveComparator x)) ∧
    (∀ a e : String, isNegStr (.str e) = false →
        createPredicateFn (.str e) primitiveComparator (.str a) =
          includesJS (lowerChars a) (lowerChars e)) ∧
    filterRun [.str "Quick", .str "brown", .undef] (.str "UICK") =
      [.str "Quick"] := by
  refine ⟨?_, ?_, by decide, ?_, ?_, by decide⟩
  · intro e he hn
    rw [createPredicateFn_prim _ he, deepCompareV,
      deepCompareFuel_prim_step primitiveComparator _ JSVal.undef e _ _ hn rfl rfl]
    simp [primitiveComparator, isUndefinedV]
  · intro e he hn
    rw [createPredicateFn_prim _ he, deepCompareV,
      deepCompareFuel_prim_step primitiveComparator _ JSVal.null e _ _ hn rfl rfl]
    have hpc : primitiveComparator .null e = strictEq .null e := by
      simp [primitiveComparator, isUndefinedV, isNullV]
    rw [hpc]
    cases e <;> simp [strictEq]
  · intro x s
    have he : isObjectV (.str ("!" ++ s)) = false := rfl
    have he2 : isObjectV (.str s) = false := rfl
    rw [createPredicateFn_prim _ he, createPredicateFn_prim _ he2,
      deepCompareV, deepCompareV]
    have h0 : "!".length = 1 := rfl
    have hf : jsSize x + jsSize (.str ("!" ++ s)) + 1 =
        (jsSize x + jsSize (.str s) + 1) + 1 := by
      simp only [jsSize, String.length_append, h0]
      omega
    rw [hf]
    have hneg : isNegStr (.str ("!" ++ s)) = true := by
      cases s with
      | mk data => rfl
    rw [deepCompareFuel_neg_step _ _ _ _ _ _ hneg]
    have hrest : negRest (.str ("!" ++ s)) = .str s := by
      cases s with
      | mk data => rfl
    rw [hrest]
  · intro a e hn
    rw [createPredicateFn_prim (JSVal.str e) rfl, deepCompareV,
      deepCompareFuel_prim_step primitiveComparator _ (JSVal.str a) (JSVal.str e) _ _ hn rfl rfl]
    simp [primitiveComparator, isUndefinedV, isNullV, jsToString]

/-- **C9 counterexample.** An undefined array element DOES match a negated
primitive criterion: `deepCompare` tests the leading `!` before
`primitiveComparator`'s undefined guard ever runs, and
`primitiveComparator undefined "o"` is `false`, so the negation is `true`.
This refutes the claim that an undefined element never matches any
criterion. -/
theorem filter_undef_negation_counterexample :
    filterRun [.undef, .str "brown"] (.str "!o") = [.undef] ∧
    createPredicateFn (.str "!o") primitiveComparator .undef = true := by
  exact ⟨by decide, by decide⟩

/-- Witness for `filter_primitive_matching` at concrete inputs. -/
theorem filter_primitive_matching_witness :
    createPredicateFn (.str "o") primitiveComparator .undef = false ∧
    (createPredicateFn (.bool true) primitiveComparator .null = true ↔
      JSVal.bool true = .null) ∧
    createPredicateFn (.str ("!" ++ "row")) primitiveComparator (.str "brown") =
      !(createPredicateFn (.str "row") primitiveComparator (.str "brown")) ∧
    createPredicateFn (.str "ICK") primitiveComparator (.str "Quick") =
      includesJS (lowerChars "Quick") (lowerChars "ICK") :=
  ⟨filter_primitive_matching.1 (.str "o") (by decide) (by decide),
   filter_primitive_matching.2.1 (.bool true) (by decide) (by decide),
   filter_primitive_matching.2.2.2.1 (.str "brown") "row",
   filter_primitive_matching.2.2.2.2.1 "Quick" "ICK" (by decide)⟩
